import Mathlib

/-!
Verification development for the `tvc` validator-tracking tool
(`tvc.py` and `tvc-ranks.py`).

The tool polls Solana RPC endpoints, ranks validators by epoch credits,
and renders a report.  We shallowly embed the data model and the
operations of the two scripts: raw JSON records become structures with
`Option` fields (a missing JSON key is `none`, and Python's
`dict.get(k, d)` becomes `Option.getD`), the stable descending sort
performed by Python's `sorted(..., key=..., reverse=True)` is embedded
as a structural stable insertion sort (stable sorts for a total
preorder are extensionally unique; sortedness, stability and the
permutation property are proved below), and the failover / polling
control flow becomes explicit functions and a step relation.
-/

namespace Tvc

/-! ### Data model and Ranking Engine (tvc.py lines 141-157) -/

/-- A raw validator record as parsed from `solana validators` JSON output
(`src/tvc.py`).  Every field may be absent from the JSON object, hence
`Option`; Python accesses them with `.get(key, default)`. -/
structure Validator where
  identityPubkey : Option String
  voteAccountPubkey : Option String
  epochCredits : Option Int
  activatedStake : Option Int
  version : Option String
  skipRate : Option String
  lastVote : Option Int
  rootSlot : Option Int
deriving DecidableEq

/-- `validator.get("epochCredits", 0)` (tvc.py lines 141, 146). -/
def getCredits (v : Validator) : Int :=
  v.epochCredits.getD 0

/-- One step of the stable descending insertion sort: `v` is placed in
front of the first element whose credits are `≤` its own, so `v` ends up
after every strictly-greater element and before every element with equal
credits (which, during `sortValidators`, are exactly the elements that
followed `v` in the input — stability). -/
def insertDesc (v : Validator) : List Validator → List Validator
  | [] => [v]
  | w :: ws =>
    if getCredits w ≤ getCredits v then v :: w :: ws
    else w :: insertDesc v ws

/-- Embedding of
`sorted(validators, key=lambda x: x.get("epochCredits", 0), reverse=True)`
(tvc.py line 141): a stable sort, descending by epoch credits.  Python's
`sorted` with `reverse=True` is stable (equal-key entries keep their
original relative order); we prove below that this function is sorted
descending, a permutation of its input, and stable, which characterises
it uniquely. -/
def sortValidators : List Validator → List Validator
  | [] => []
  | v :: rest => insertDesc v (sortValidators rest)

/-- A validator record augmented with its rank (tvc.py line 145:
`{**validator, "rank": idx + 1}`). -/
structure RankedValidator where
  validator : Validator
  rank : Nat
deriving DecidableEq

/-- Embedding of the list comprehension
`[{**v, "rank": idx + 1} for idx, v in enumerate(sorted_validators) if v.get("epochCredits", 0) > 0]`
(tvc.py lines 144-147): walk the sorted list with a running 0-based
index, keep only positive-credit entries, and stamp each kept entry with
`index + 1`. -/
def rankWithIdx : Nat → List Validator → List RankedValidator
  | _, [] => []
  | idx, v :: rest =>
    if 0 < getCredits v then ⟨v, idx + 1⟩ :: rankWithIdx (idx + 1) rest
    else rankWithIdx (idx + 1) rest

/-- The ranked view of one cycle: sort, then consume-then-filter
(tvc.py lines 141-147). -/
def rankedValidators (vs : List Validator) : List RankedValidator :=
  rankWithIdx 0 (sortValidators vs)

/-- `epoch_credits_rank_1 = ranked_validators[0]["epochCredits"] if ranked_validators else 0`
(tvc.py line 157).  Every ranked entry carries its `epochCredits` key
(the filter only keeps entries whose credits are positive, hence
present), so the direct dictionary access is `getCredits` of the head. -/
def epochCreditsRank1 (ranked : List RankedValidator) : Int :=
  match ranked with
  | [] => 0
  | rv :: _ => getCredits rv.validator

/-- `missed_credits = epoch_credits_rank_1 - epoch_credits` (tvc.py line 210). -/
def missedCredits (ranked : List RankedValidator) (rv : RankedValidator) : Int :=
  epochCreditsRank1 ranked - getCredits rv.validator

/-! ### Lookup Index (tvc.py lines 159-197)

The three per-cycle lookup tables.  A gossip node and a validator-info
entry are records whose JSON keys may each be absent.  Python's nested
`info.get("info", {}).get("name", "Unknown")` collapses to a single
optional name. -/

/-- One entry of `solana gossip` output. -/
structure GossipNode where
  identityPubkey : Option String
  ipAddress : Option String
deriving DecidableEq

/-- One entry of `solana validator-info get` output; `name` stands for
`info.get("info", {}).get("name", ...)`, absent when either the `info`
object or its `name` key is missing. -/
structure InfoEntry where
  identityPubkey : Option String
  name : Option String
deriving DecidableEq

/-- `get_validator_name` (tvc.py lines 160-164): first matching info
entry wins; a miss, or a hit with no published name, yields "Unknown". -/
def get_validator_name (infos : List InfoEntry) (id : String) : String :=
  match infos.find? (fun i => i.identityPubkey == some id) with
  | some i => i.name.getD "Unknown"
  | none => "Unknown"

/-- `get_ip_address` (tvc.py lines 167-171). -/
def get_ip_address (gossip : List GossipNode) (id : String) : String :=
  match gossip.find? (fun n => n.identityPubkey == some id) with
  | some n => n.ipAddress.getD "Unknown"
  | none => "Unknown"

/-- A displayed field value: either a real value or the "Unknown"
sentinel string. -/
inductive FieldVal (α : Type) where
  | val : α → FieldVal α
  | unknown : FieldVal α
deriving DecidableEq

def toFieldVal {α : Type} : Option α → FieldVal α
  | some a => FieldVal.val a
  | none => FieldVal.unknown

/-- The record returned by `get_validator_details` (tvc.py lines
181-197).  `activatedStake` is the displayed stake,
`int(validator.get('activatedStake', 0)) / 1_000_000_000` — the raw
base-unit integer divided by 10^9, as an exact rational (the two-decimal
float formatting is presentation only). -/
structure ValidatorDetails where
  lastVote : FieldVal Int
  rootSlot : FieldVal Int
  activatedStake : FieldVal ℚ
  version : FieldVal String
  skipRate : FieldVal String
deriving DecidableEq

/-- `get_validator_details` (tvc.py lines 180-197): linear scan of the
ranked list; a found record fills each field independently, a miss
yields the all-"Unknown" record. -/
def get_validator_details (ranked : List RankedValidator) (id : String) :
    ValidatorDetails :=
  match ranked.find? (fun rv => rv.validator.identityPubkey == some id) with
  | some rv =>
    { lastVote := toFieldVal rv.validator.lastVote
      rootSlot := toFieldVal rv.validator.rootSlot
      activatedStake :=
        FieldVal.val (((rv.validator.activatedStake.getD 0 : Int) : ℚ) / 1000000000)
      version := toFieldVal rv.validator.version
      skipRate := toFieldVal rv.validator.skipRate }
  | none =>
    { lastVote := FieldVal.unknown
      rootSlot := FieldVal.unknown
      activatedStake := FieldVal.unknown
      version := FieldVal.unknown
      skipRate := FieldVal.unknown }

/-! ### Endpoint Failover Client (tvc.py lines 58-74)

`run_solana_command` tries each RPC URL in order; the external CLI
invocation is a parameter `fetch` returning `some stdout` on success and
`none` on a `CalledProcessError`.  The function returns the first
successful stdout (or `none` when every endpoint failed) together with
the list of endpoints for which a failure warning was printed, in
order. -/

def run_solana_command (fetch : String → Option String) :
    List String → Option String × List String
  | [] => (none, [])
  | url :: rest =>
    match fetch url with
    | some out => (some out, [])
    | none =>
      let r := run_solana_command fetch rest
      (r.1, url :: r.2)

/-- Python truthiness of the fetch result as used by
`if not validators_data:` (tvc.py line 98): `None` and the empty string
are falsy. -/
def falsyPayload : Option String → Bool
  | none => true
  | some s => s == ""

/-- Outcome of one refresh cycle of `fetch_and_display_validator_data`:
either an early `return` because a fetch produced no data (the cycle is
skipped and control goes back to the inter-cycle sleep), or an uncaught
exception escaping the function (which terminates the process, since the
main loop catches only `KeyboardInterrupt`), or a completed cycle
carrying the three parsed datasets. -/
inductive CycleResult where
  | skipped : CycleResult
  | crashed : String → CycleResult
  | completed : List Validator → List GossipNode → List InfoEntry → CycleResult
deriving DecidableEq

/-- Control-flow embedding of `fetch_and_display_validator_data`
(tvc.py lines 95-138): fetch the validator list, bail out of the cycle
if the payload is falsy, otherwise parse it (`json.loads` plus
`.get("validators", [])`, a parameter; a parse failure is an uncaught
exception); then the same for gossip and validator-info.  Temp-file
bookkeeping and rendering are external side effects with no bearing on
the result. -/
def runCycle (eps : List String)
    (fetchV fetchG fetchI : String → Option String)
    (parseV : String → Option (List Validator))
    (parseG : String → Option (List GossipNode))
    (parseI : String → Option (List InfoEntry)) : CycleResult :=
  let vd := (run_solana_command fetchV eps).1
  if falsyPayload vd then CycleResult.skipped
  else
    match parseV (vd.getD "") with
    | none => CycleResult.crashed "json.loads validators"
    | some validators =>
      let gd := (run_solana_command fetchG eps).1
      if falsyPayload gd then CycleResult.skipped
      else
        match parseG (gd.getD "") with
        | none => CycleResult.crashed "json.loads gossip"
        | some gossip =>
          let vi := (run_solana_command fetchI eps).1
          if falsyPayload vi then CycleResult.skipped
          else
            match parseI (vi.getD "") with
            | none => CycleResult.crashed "json.loads validator-info"
            | some infos => CycleResult.completed validators gossip infos

/-! ### Command-line argument validation (tvc.py lines 44-53) -/

/-- Where a message is written: Python's bare `print` writes to standard
output. -/
inductive OutStream where
  | stdout : OutStream
  | stderr : OutStream
deriving DecidableEq

/-- A rejected invocation: the stream the message goes to, the message,
and the `sys.exit` code. -/
structure CliError where
  stream : OutStream
  message : String
  exitCode : Nat
deriving DecidableEq

def usageMessage : String :=
  "Usage: python3 tvc.py <um|ut> <validator_identity>"

def clusterErrorMessage : String :=
  "Error: First argument must be 'um' for mainnet or 'ut' for testnet."

/-- ASCII lowercasing of one character, as Python's `str.lower()` does
on ASCII input (embedded structurally so that it evaluates). -/
def lowerChar (c : Char) : Char :=
  if 65 ≤ c.toNat ∧ c.toNat ≤ 90 then Char.ofNat (c.toNat + 32) else c

/-- `sys.argv[1].lower()` (tvc.py line 48), for ASCII arguments. -/
def lowerAscii (s : String) : String :=
  ⟨s.data.map lowerChar⟩

/-- tvc.py lines 44-53: `sys.argv` (script name included) must have
exactly three entries; the first real argument, lowercased, must be
`um` or `ut`.  Both rejections use `print` (standard output) and
`sys.exit(1)`. -/
def validateArgs (argv : List String) : Except CliError (String × String) :=
  match argv with
  | [_, arg1, arg2] =>
    let cluster := lowerAscii arg1
    if cluster = "um" ∨ cluster = "ut" then Except.ok (cluster, arg2)
    else Except.error ⟨OutStream.stdout, clusterErrorMessage, 1⟩
  | _ => Except.error ⟨OutStream.stdout, usageMessage, 1⟩

/-! ### Polling loop and cancellation (tvc.py lines 30-41, 270-277)

The main loop is

    while running:
        fetch_and_display_validator_data()
        sleep_start = time.time()
        while running and time.time() - sleep_start < 5:
            time.sleep(0.1)

with `running` a global flag cleared by the SIGINT/SIGTERM handler.  We
embed it as a step machine over abstract phases; time is counted in
0.1-second sleep ticks (the 5-second interval is 50 ticks).  A signal
may arrive during any step: each step takes a Boolean `sig` and clears
the flag at the step's end, so a signal arriving during an in-flight
`time.sleep(0.1)` lets that tick finish before being observed.  The body
of `fetch_and_display_validator_data` is abstracted as `cycleWork k`
(`k` units of fetch/rank/render work remaining); nothing in the body
consults `running`, which the step function mirrors: cycle steps ignore
the flag. -/

inductive LoopPhase where
  | outerCheck : LoopPhase
  | cycleWork : Nat → LoopPhase
  | sleepLoop : Nat → LoopPhase
  | stopped : LoopPhase
deriving DecidableEq

structure LoopState where
  phase : LoopPhase
  running : Bool
deriving DecidableEq

/-- 5 seconds of inter-cycle sleep at 0.1-second granularity. -/
def sleepTicks : Nat := 50

/-- One step of the polling loop; `n` is the number of work units in a
refresh cycle, `sig` records whether a termination signal arrived during
this step. -/
def loopStep (n : Nat) (s : LoopState) (sig : Bool) : LoopState :=
  let next : LoopPhase :=
    match s.phase with
    | LoopPhase.outerCheck =>
      if s.running then LoopPhase.cycleWork n else LoopPhase.stopped
    | LoopPhase.cycleWork 0 => LoopPhase.sleepLoop 0
    | LoopPhase.cycleWork (k + 1) => LoopPhase.cycleWork k
    | LoopPhase.sleepLoop e =>
      if s.running ∧ e < sleepTicks then LoopPhase.sleepLoop (e + 1)
      else LoopPhase.outerCheck
    | LoopPhase.stopped => LoopPhase.stopped
  ⟨next, s.running && !sig⟩

/-- Run the loop through a list of steps with the given signal inputs. -/
def loopSteps (n : Nat) (s : LoopState) (sigs : List Bool) : LoopState :=
  sigs.foldl (loopStep n) s

/-- A step actually spends 0.1 s in `time.sleep` exactly when the inner
`while` condition holds: the flag is still set and the interval is not
over. -/
def isSleepTick (s : LoopState) : Bool :=
  match s.phase with
  | LoopPhase.sleepLoop e => s.running && decide (e < sleepTicks)
  | _ => false

/-! ### The extended-table variant's rank list (tvc-ranks.py lines 25-27, 197-203) -/

/-- Initial value of the module-level `LIST_RANKS` (tvc-ranks.py lines
25-27). -/
def LIST_RANKS_init : List Nat :=
  [1, 5, 10, 15, 20, 25, 30, 35, 40, 45, 50, 60, 70, 80, 90, 100,
   150, 200, 250, 300, 350, 400, 450, 500, 550, 600, 650, 700, 750, 800,
   850, 900, 950, 1000, 1050, 1100, 1150, 1200, 1250, 1300]

/-- One step of the stable ascending insertion sort on naturals:
`r` goes in front of the first element that is `≥` it. -/
def insertAsc (r : Nat) : List Nat → List Nat
  | [] => [r]
  | x :: xs => if r ≤ x then r :: x :: xs else x :: insertAsc r xs

/-- `LIST_RANKS.sort()`: Python's in-place ascending stable sort,
embedded as stable insertion sort (extensionally unique as in
`sortValidators`). -/
def sortAsc : List Nat → List Nat
  | [] => []
  | x :: xs => insertAsc x (sortAsc xs)

/-- tvc-ranks.py lines 197-203: after building the ranked view, if the
highlighted validator was found (`userRank = some r`) and its rank is
not already listed, it is appended and the list sorted in place. -/
def updateListRanks (listRanks : List Nat) (userRank : Option Nat) : List Nat :=
  match userRank with
  | none => listRanks
  | some r => if r ∈ listRanks then listRanks else sortAsc (listRanks ++ [r])

/-- The accumulated rank list after a sequence of cycles, given the
highlighted validator's rank in each cycle (`none` when it was not in
the ranked set). -/
def runRankCycles (init : List Nat) (ranks : List (Option Nat)) : List Nat :=
  ranks.foldl updateListRanks init

/-! ### Concrete fixtures

Small closed inputs used by witnesses and counterexamples.  `exListSpec`
is the end-to-end scenario from the specification: validators A and B
with 100 credits, C with 50, D with 0. -/

/-- A validator publishing only an identity and epoch credits. -/
def mkV (id : String) (c : Int) : Validator :=
  ⟨some id, none, some c, none, none, none, none, none⟩

def exListSpec : List Validator :=
  [mkV "A" 100, mkV "B" 100, mkV "C" 50, mkV "D" 0]

/-- A fetch that fails on every endpoint. -/
def exFetchFail : String → Option String :=
  fun _ => none

/-- A fetch for which the first endpoint fails and the second succeeds. -/
def exFetchOk2 : String → Option String :=
  fun e => if e = "e2" then some "ok" else none

/-- A fetch whose first endpoint returns an unparseable payload and
whose second endpoint would return a parseable one. -/
def exFetchGarbage : String → Option String :=
  fun e => if e = "e1" then some "garbage" else some "good"

/-- A parser accepting exactly the payload "good". -/
def exParseV : String → Option (List Validator) :=
  fun s => if s = "good" then some [] else none

def exParseVany : String → Option (List Validator) :=
  fun _ => some []

def exParseG : String → Option (List GossipNode) :=
  fun _ => some []

def exParseI : String → Option (List InfoEntry) :=
  fun _ => some []

/-- A validator with a published raw stake of 7 × 10^9 and no published
version. -/
def exStakeV : Validator :=
  ⟨some "A", none, some 5, some 7000000000, none, none, none, none⟩

/-! ## Properties of the stable descending sort -/

theorem insertDesc_perm (v : Validator) (l : List Validator) :
    List.Perm (insertDesc v l) (v :: l) := by
  induction l with
  | nil => simp [insertDesc]
  | cons w ws ih =>
    by_cases h : getCredits w ≤ getCredits v
    · simp [insertDesc, h]
    · simp only [insertDesc, if_neg h]
      exact (ih.cons w).trans (List.Perm.swap _ _ _)

theorem sortValidators_perm (vs : List Validator) :
    List.Perm (sortValidators vs) vs := by
  induction vs with
  | nil => exact List.Perm.refl _
  | cons v rest ih =>
    exact (insertDesc_perm v _).trans (ih.cons v)

theorem mem_insertDesc {x v : Validator} {l : List Validator} :
    x ∈ insertDesc v l ↔ x = v ∨ x ∈ l :=
  (insertDesc_perm v l).mem_iff.trans (by simp)

theorem mem_sortValidators {x : Validator} {vs : List Validator} :
    x ∈ sortValidators vs ↔ x ∈ vs :=
  (sortValidators_perm vs).mem_iff

theorem insertDesc_pairwise {v : Validator} {l : List Validator}
    (h : l.Pairwise (fun a b => getCredits b ≤ getCredits a)) :
    (insertDesc v l).Pairwise (fun a b => getCredits b ≤ getCredits a) := by
  induction l with
  | nil => simp [insertDesc]
  | cons w ws ih =>
    rcases List.pairwise_cons.mp h with ⟨hw, hws⟩
    by_cases hle : getCredits w ≤ getCredits v
    · rw [insertDesc, if_pos hle]
      refine List.pairwise_cons.mpr ⟨?_, h⟩
      intro b hb
      rcases List.mem_cons.mp hb with rfl | hb
      · exact hle
      · exact le_trans (hw b hb) hle
    · rw [insertDesc, if_neg hle]
      refine List.pairwise_cons.mpr ⟨?_, ih hws⟩
      intro b hb
      rcases mem_insertDesc.mp hb with rfl | hb
      · exact le_of_lt (lt_of_not_le hle)
      · exact hw b hb

/-- The sorted list is non-increasing in epoch credits. -/
theorem sortValidators_pairwise (vs : List Validator) :
    (sortValidators vs).Pairwise (fun a b => getCredits b ≤ getCredits a) := by
  induction vs with
  | nil => simp [sortValidators]
  | cons v rest ih => exact insertDesc_pairwise ih

theorem filter_insertDesc (v : Validator) (l : List Validator) (c : Int) :
    (insertDesc v l).filter (fun w => getCredits w == c) =
      if getCredits v == c then v :: l.filter (fun w => getCredits w == c)
      else l.filter (fun w => getCredits w == c) := by
  induction l with
  | nil => by_cases h : getCredits v == c <;> simp [insertDesc, List.filter, h]
  | cons w ws ih =>
    by_cases hle : getCredits w ≤ getCredits v
    · by_cases hv : getCredits v == c <;> simp [insertDesc, hle, List.filter, hv]
    · have hlt : getCredits v < getCredits w := lt_of_not_le hle
      by_cases hv : getCredits v == c
      · have hvc : getCredits v = c := by exact_mod_cast of_decide_eq_true hv
        have hw : (getCredits w == c) = false := by
          apply decide_eq_false
          omega
        simp [insertDesc, if_neg hle, List.filter, hw, ih, hv]
      · by_cases hw : getCredits w == c <;>
          simp [insertDesc, if_neg hle, List.filter, hw, ih, hv]

/-- Stability: restricted to any one credits value, the sort is the
identity — equal-credit entries keep their original relative order. -/
theorem sortValidators_filter (vs : List Validator) (c : Int) :
    (sortValidators vs).filter (fun w => getCredits w == c) =
      vs.filter (fun w => getCredits w == c) := by
  induction vs with
  | nil => rfl
  | cons v rest ih =>
    by_cases hv : getCredits v == c <;>
      simp [sortValidators, filter_insertDesc, hv, List.filter, ih]

/-! ## Properties of rank assignment -/

theorem mem_rankWithIdx {rv : RankedValidator} :
    ∀ {n : Nat} {l : List Validator}, rv ∈ rankWithIdx n l →
      n < rv.rank ∧ l[rv.rank - 1 - n]? = some rv.validator ∧
        0 < getCredits rv.validator := by
  intro n l
  induction l generalizing n with
  | nil => simp [rankWithIdx]
  | cons v rest ih =>
    intro hmem
    by_cases hv : 0 < getCredits v
    · simp only [rankWithIdx, if_pos hv] at hmem
      rcases List.mem_cons.mp hmem with rfl | hmem
      · simp [hv]
      · rcases ih hmem with ⟨h1, h2, h3⟩
        refine ⟨by omega, ?_, h3⟩
        have hidx : rv.rank - 1 - n = (rv.rank - 1 - (n + 1)) + 1 := by omega
        rw [hidx, List.getElem?_cons_succ]
        exact h2
    · simp only [rankWithIdx, if_neg hv] at hmem
      rcases ih hmem with ⟨h1, h2, h3⟩
      refine ⟨by omega, ?_, h3⟩
      have hidx : rv.rank - 1 - n = (rv.rank - 1 - (n + 1)) + 1 := by omega
      rw [hidx, List.getElem?_cons_succ]
      exact h2

theorem rankWithIdx_mem_of_getElem :
    ∀ {n i : Nat} {l : List Validator} {v : Validator},
      l[i]? = some v → 0 < getCredits v →
      (⟨v, n + i + 1⟩ : RankedValidator) ∈ rankWithIdx n l := by
  intro n i l
  induction l generalizing n i with
  | nil => simp
  | cons w rest ih =>
    intro v hget hpos
    cases i with
    | zero =>
      rw [List.getElem?_cons_zero] at hget
      cases Option.some.inj hget
      simp [rankWithIdx, hpos]
    | succ i =>
      rw [List.getElem?_cons_succ] at hget
      have hmem := ih (n := n + 1) hget hpos
      have harith : n + (i + 1) + 1 = (n + 1) + i + 1 := by omega
      rw [harith]
      by_cases hw : 0 < getCredits w
      · simp only [rankWithIdx, if_pos hw]
        exact List.mem_cons_of_mem _ hmem
      · simpa only [rankWithIdx, if_neg hw] using hmem

theorem rankWithIdx_validator_mem {rv : RankedValidator} :
    ∀ {n : Nat} {l : List Validator}, rv ∈ rankWithIdx n l → rv.validator ∈ l := by
  intro n l h
  rcases mem_rankWithIdx h with ⟨-, h2, -⟩
  exact List.getElem?_mem h2

theorem rankWithIdx_eq_nil {n : Nat} {l : List Validator}
    (h : ∀ w ∈ l, ¬ 0 < getCredits w) : rankWithIdx n l = [] := by
  induction l generalizing n with
  | nil => rfl
  | cons v rest ih =>
    have hv : ¬ 0 < getCredits v := h v (List.mem_cons_self v rest)
    simp only [rankWithIdx, if_neg hv]
    exact ih fun w hw => h w (List.mem_cons_of_mem v hw)

/-- Over a descending-sorted list the assigned ranks are consecutive:
positive-credit entries form a prefix of the sorted list, so the kept
indices are an initial segment. -/
theorem rankWithIdx_map_rank_of_pairwise :
    ∀ {n : Nat} {l : List Validator},
      l.Pairwise (fun a b => getCredits b ≤ getCredits a) →
      (rankWithIdx n l).map RankedValidator.rank =
        List.range' (n + 1) (rankWithIdx n l).length := by
  intro n l
  induction l generalizing n with
  | nil => simp [rankWithIdx]
  | cons v rest ih =>
    intro h
    rcases List.pairwise_cons.mp h with ⟨hv, hrest⟩
    by_cases hpos : 0 < getCredits v
    · simp only [rankWithIdx, if_pos hpos, List.map_cons, List.length_cons,
        List.range'_succ]
      rw [ih hrest]
    · have hnil : rankWithIdx (n + 1) rest = [] :=
        rankWithIdx_eq_nil fun w hw => by
          have := hv w hw
          omega
      simp [rankWithIdx, if_neg hpos, hnil]

/-- If the ranked view is non-empty, the sorted list starts with a
positive-credit validator and the ranked view starts with that
validator, carrying rank 1. -/
theorem rankedValidators_head_eq {vs : List Validator} {s : Validator}
    {rest : List Validator} (hs : sortValidators vs = s :: rest)
    (hne : rankedValidators vs ≠ []) :
    0 < getCredits s ∧
      rankedValidators vs = ⟨s, 1⟩ :: rankWithIdx 1 rest := by
  have hpos : 0 < getCredits s := by
    by_contra hnp
    have hpw := sortValidators_pairwise vs
    rw [hs] at hpw
    rcases List.pairwise_cons.mp hpw with ⟨hhead, -⟩
    have : rankedValidators vs = [] := by
      unfold rankedValidators
      rw [hs]
      exact rankWithIdx_eq_nil fun w hw => by
        rcases List.mem_cons.mp hw with rfl | hw
        · exact hnp
        · have := hhead w hw
          omega
    exact hne this
  refine ⟨hpos, ?_⟩
  unfold rankedValidators
  rw [hs]
  simp [rankWithIdx, hpos]

/-- `find?` returns the head of the filtered list. -/
theorem find?_eq_head?_filter {α : Type} (p : α → Bool) (l : List α) :
    l.find? p = (l.filter p).head? := by
  induction l with
  | nil => rfl
  | cons x xs ih =>
    by_cases hx : p x
    · simp [List.find?_cons_of_pos _ hx, List.filter_cons_of_pos hx]
    · simp only [List.find?_cons_of_neg _ hx,
        List.filter_cons_of_neg (by simpa using hx)]
      exact ih

/-! ## Properties of the ascending insertion sort on naturals -/

theorem insertAsc_perm (r : Nat) (l : List Nat) :
    List.Perm (insertAsc r l) (r :: l) := by
  induction l with
  | nil => simp [insertAsc]
  | cons x xs ih =>
    by_cases h : r ≤ x
    · simp [insertAsc, h]
    · simp only [insertAsc, if_neg h]
      exact (ih.cons x).trans (List.Perm.swap _ _ _)

theorem sortAsc_perm (l : List Nat) : List.Perm (sortAsc l) l := by
  induction l with
  | nil => exact List.Perm.refl _
  | cons x xs ih => exact (insertAsc_perm x _).trans (ih.cons x)

theorem mem_insertAsc {y r : Nat} {l : List Nat} :
    y ∈ insertAsc r l ↔ y = r ∨ y ∈ l :=
  (insertAsc_perm r l).mem_iff.trans (by simp)

theorem insertAsc_pairwise {r : Nat} {l : List Nat}
    (h : l.Pairwise (· ≤ ·)) : (insertAsc r l).Pairwise (· ≤ ·) := by
  induction l with
  | nil => simp [insertAsc]
  | cons x xs ih =>
    rcases List.pairwise_cons.mp h with ⟨hx, hxs⟩
    by_cases hle : r ≤ x
    · rw [insertAsc, if_pos hle]
      refine List.pairwise_cons.mpr ⟨?_, h⟩
      intro b hb
      rcases List.mem_cons.mp hb with rfl | hb
      · exact hle
      · exact le_trans hle (hx b hb)
    · rw [insertAsc, if_neg hle]
      refine List.pairwise_cons.mpr ⟨?_, ih hxs⟩
      intro b hb
      rcases mem_insertAsc.mp hb with rfl | hb
      · omega
      · exact hx b hb

theorem sortAsc_pairwise (l : List Nat) : (sortAsc l).Pairwise (· ≤ ·) := by
  induction l with
  | nil => simp [sortAsc]
  | cons x xs ih => exact insertAsc_pairwise ih

theorem mem_updateListRanks {x : Nat} {lr : List Nat} {ur : Option Nat}
    (h : x ∈ lr) : x ∈ updateListRanks lr ur := by
  cases ur with
  | none => exact h
  | some r =>
    unfold updateListRanks
    by_cases hr : r ∈ lr
    · simpa [hr] using h
    · simp only [if_neg hr]
      exact (sortAsc_perm _).mem_iff.mpr (List.mem_append_left _ h)

theorem mem_runRankCycles_of_mem {x : Nat} :
    ∀ {urs : List (Option Nat)} {init : List Nat},
      x ∈ init → x ∈ runRankCycles init urs := by
  intro urs
  induction urs with
  | nil => exact fun h => h
  | cons u rest ih =>
    intro init h
    exact ih (mem_updateListRanks h)

/-! ## Claim theorems -/

/-- C1.  The Ranking Engine stable-sorts the input descending by epoch
credits and applies consume-then-filter rank assignment:
(1) the sorted list is non-increasing in epoch credits;
(2) entries with equal epoch credits keep their original relative order
    (stability, stated as: restricting the sorted list to any one
    credits value gives exactly the input restricted to that value);
(3) every entry of the ranked view has positive epoch credits and its
    rank is its 1-based position in the full sorted list (so ranks of
    surviving entries reflect the original full sort, zero-credit
    entries having consumed their rank slots);
(4) conversely, every positive-credit entry of the full sorted list
    appears in the ranked view with rank = its 1-based sorted position. -/
theorem ranking_engine_stable_sort_rank_filter (vs : List Validator) :
    (sortValidators vs).Pairwise (fun a b => getCredits b ≤ getCredits a) ∧
    (∀ c : Int,
      (sortValidators vs).filter (fun w => getCredits w == c) =
        vs.filter (fun w => getCredits w == c)) ∧
    (∀ rv ∈ rankedValidators vs,
      0 < getCredits rv.validator ∧ 1 ≤ rv.rank ∧
        (sortValidators vs)[rv.rank - 1]? = some rv.validator) ∧
    (∀ (i : Nat) (v : Validator), (sortValidators vs)[i]? = some v →
      0 < getCredits v →
      (⟨v, i + 1⟩ : RankedValidator) ∈ rankedValidators vs) := by
  refine ⟨sortValidators_pairwise vs, sortValidators_filter vs, ?_, ?_⟩
  · intro rv hrv
    rcases mem_rankWithIdx hrv with ⟨h1, h2, h3⟩
    refine ⟨h3, h1, ?_⟩
    simpa using h2
  · intro i v hget hpos
    have := rankWithIdx_mem_of_getElem (n := 0) hget hpos
    simpa [rankedValidators, Nat.zero_add] using this

/-- C1 witness: the specification's end-to-end scenario.  Validator C
(50 credits) sits at 0-based position 2 of the full sorted list and is
ranked 3; the stability conjunct instantiated at credits value 100
keeps A before B as in the input. -/
theorem ranking_engine_stable_sort_rank_filter_witness :
    (⟨mkV "C" 50, 3⟩ : RankedValidator) ∈ rankedValidators exListSpec ∧
    (sortValidators exListSpec).filter (fun w => getCredits w == 100) =
      exListSpec.filter (fun w => getCredits w == 100) := by
  have h := ranking_engine_stable_sort_rank_filter exListSpec
  exact ⟨h.2.2.2 2 (mkV "C" 50) rfl (by decide), h.2.1 100⟩

/-- C2.  For inputs whose epoch credits are all non-negative, the ranks
appearing in the filtered ranked view are contiguous starting at 1:
the rank column is exactly `[1, 2, ..., length]`.  (Positive-credit
entries occupy a prefix of the descending sort, so the consumed rank
slots that survive the filter form an initial segment.) -/
theorem ranked_ranks_contiguous_from_one (vs : List Validator)
    (hnonneg : ∀ v ∈ vs, 0 ≤ getCredits v) :
    (rankedValidators vs).map RankedValidator.rank =
      List.range' 1 (rankedValidators vs).length := by
  have := rankWithIdx_map_rank_of_pairwise (n := 0) (sortValidators_pairwise vs)
  simpa [rankedValidators] using this

/-- C2 witness: the specification's end-to-end scenario has rank column
`[1, 2, 3]`. -/
theorem ranked_ranks_contiguous_from_one_witness :
    (rankedValidators exListSpec).map RankedValidator.rank =
      List.range' 1 (rankedValidators exListSpec).length :=
  ranked_ranks_contiguous_from_one exListSpec (by decide)

/-- C3.  In a non-empty ranked view: the first entry has rank 1; its
epoch credits are maximal among the input's validators with positive
credits; on ties it is the earliest such validator in input order
(stated via `find?`); and for every ranked validator, missed credits =
leader credits − own credits, is non-negative, and is exactly 0 for
rank 1. -/
theorem rank1_max_and_missed_credits (vs : List Validator)
    (hne : rankedValidators vs ≠ []) :
    ((rankedValidators vs).head hne).rank = 1 ∧
    (∀ v ∈ vs, 0 < getCredits v →
      getCredits v ≤ getCredits ((rankedValidators vs).head hne).validator) ∧
    vs.find?
        (fun v => getCredits v == getCredits ((rankedValidators vs).head hne).validator)
      = some ((rankedValidators vs).head hne).validator ∧
    (∀ rv ∈ rankedValidators vs,
      missedCredits (rankedValidators vs) rv =
        getCredits ((rankedValidators vs).head hne).validator -
          getCredits rv.validator ∧
      0 ≤ missedCredits (rankedValidators vs) rv ∧
      (rv.rank = 1 → missedCredits (rankedValidators vs) rv = 0)) := by
  obtain ⟨s, rest, hs⟩ : ∃ s rest, sortValidators vs = s :: rest := by
    cases hsort : sortValidators vs with
    | nil =>
      exfalso
      apply hne
      unfold rankedValidators
      rw [hsort]
      rfl
    | cons s rest => exact ⟨s, rest, rfl⟩
  rcases rankedValidators_head_eq hs hne with ⟨hpos, hranked⟩
  have hhead : (rankedValidators vs).head hne = ⟨s, 1⟩ := by
    rw [List.head_eq_iff_head?_eq_some, hranked]
    rfl
  have hpw := sortValidators_pairwise vs
  rw [hs] at hpw
  rcases List.pairwise_cons.mp hpw with ⟨hsmax, -⟩
  have hbound : ∀ v ∈ sortValidators vs, getCredits v ≤ getCredits s := by
    intro v hv
    rw [hs] at hv
    rcases List.mem_cons.mp hv with rfl | hv
    · exact le_refl _
    · exact hsmax v hv
  have hbaseline : epochCreditsRank1 (rankedValidators vs) = getCredits s := by
    rw [hranked]
    rfl
  refine ⟨by rw [hhead], ?_, ?_, ?_⟩
  · intro v hv _
    rw [hhead]
    exact hbound v (mem_sortValidators.mpr hv)
  · rw [hhead]
    rw [find?_eq_head?_filter, ← sortValidators_filter vs (getCredits s), hs,
      List.filter_cons_of_pos (by simp)]
    rfl
  · intro rv hrv
    rw [hhead]
    have hmem : rv.validator ∈ sortValidators vs := by
      apply rankWithIdx_validator_mem (n := 0)
      exact hrv
    have hle : getCredits rv.validator ≤ getCredits s := hbound _ hmem
    refine ⟨by rw [missedCredits, hbaseline], ?_, ?_⟩
    · rw [missedCredits, hbaseline]
      omega
    · intro hrank1
      rw [hranked] at hrv
      rcases List.mem_cons.mp hrv with rfl | hrv
      · rw [missedCredits, hbaseline]
        simp
      · rcases mem_rankWithIdx hrv with ⟨hgt, -, -⟩
        omega

/-- C3 witness: in the specification's end-to-end scenario the leader is
A with rank 1 and 100 credits, and C's missed credits are 100 − 50 ≥ 0. -/
theorem rank1_max_and_missed_credits_witness :
    ((rankedValidators exListSpec).head (by decide)).rank = 1 ∧
    getCredits (mkV "C" 50) ≤
      getCredits ((rankedValidators exListSpec).head (by decide)).validator ∧
    0 ≤ missedCredits (rankedValidators exListSpec) ⟨mkV "C" 50, 3⟩ := by
  have h := rank1_max_and_missed_credits exListSpec (by decide)
  refine ⟨h.1, ?_, ?_⟩
  · exact h.2.1 (mkV "C" 50) (by decide) (by decide)
  · exact (h.2.2.2 ⟨mkV "C" 50, 3⟩ (by decide)).2.1

/-- C4.  Failover behaviour of `run_solana_command` and its caller:
(1) with the endpoint list split as `pre ++ url :: post` where every
    endpoint of `pre` fails and `url` succeeds with output `out`, the
    client returns `out` and warns exactly once per failed endpoint
    (the warning list is exactly `pre`; `post` is never consulted);
(2) if every endpoint fails, the client returns `none` — the
    "all endpoints exhausted" outcome — after one warning per endpoint;
(3) at the cycle level, an exhausted validator fetch makes the whole
    cycle `skipped` (an early `return`, not a crash), whatever the
    remaining fetches and parsers would do;
(4) in the polling loop, a finished cycle (skipped or not) is followed
    by the inter-cycle sleep phase. -/
theorem failover_first_success_and_exhaustion :
    (∀ (fetch : String → Option String) (pre post : List String)
        (url out : String),
      (∀ e ∈ pre, fetch e = none) → fetch url = some out →
      run_solana_command fetch (pre ++ url :: post) = (some out, pre)) ∧
    (∀ (fetch : String → Option String) (eps : List String),
      (∀ e ∈ eps, fetch e = none) →
      run_solana_command fetch eps = (none, eps)) ∧
    (∀ (eps : List String) (fetchV fetchG fetchI : String → Option String)
        (parseV : String → Option (List Validator))
        (parseG : String → Option (List GossipNode))
        (parseI : String → Option (List InfoEntry)),
      (∀ e ∈ eps, fetchV e = none) →
      runCycle eps fetchV fetchG fetchI parseV parseG parseI =
        CycleResult.skipped) ∧
    (∀ (n : Nat) (s : LoopState) (sig : Bool),
      s.phase = LoopPhase.cycleWork 0 →
      (loopStep n s sig).phase = LoopPhase.sleepLoop 0) := by
  have hfail : ∀ (fetch : String → Option String) (eps : List String),
      (∀ e ∈ eps, fetch e = none) →
      run_solana_command fetch eps = (none, eps) := by
    intro fetch eps
    induction eps with
    | nil => intro _; rfl
    | cons url rest ih =>
      intro h
      have hurl : fetch url = none := h url (List.mem_cons_self url rest)
      simp only [run_solana_command, hurl]
      rw [ih fun e he => h e (List.mem_cons_of_mem url he)]
  refine ⟨?_, hfail, ?_, ?_⟩
  · intro fetch pre post url out hpre hurl
    induction pre with
    | nil => simp [run_solana_command, hurl]
    | cons e rest ih =>
      have he : fetch e = none := hpre e (List.mem_cons_self e rest)
      have hrest := ih fun x hx => hpre x (List.mem_cons_of_mem e hx)
      simp only [List.cons_append, run_solana_command, he, List.append_eq]
      rw [hrest]
  · intro eps fetchV fetchG fetchI parseV parseG parseI h
    unfold runCycle
    rw [hfail fetchV eps h]
    rfl
  · intro n s sig hphase
    simp [loopStep, hphase]

/-- C4 witness: with endpoints `["e1", "e2"]`, a fetch failing on `e1`
and succeeding on `e2` returns `e2`'s output with one warning; a fetch
failing everywhere returns `none` with two warnings and skips the cycle;
a finished cycle is followed by the sleep phase. -/
theorem failover_first_success_and_exhaustion_witness :
    run_solana_command exFetchOk2 (["e1"] ++ "e2" :: []) = (some "ok", ["e1"]) ∧
    run_solana_command exFetchFail ["e1", "e2"] = (none, ["e1", "e2"]) ∧
    runCycle ["e1", "e2"] exFetchFail exFetchOk2 exFetchOk2
        exParseVany exParseG exParseI = CycleResult.skipped ∧
    (loopStep 3 ⟨LoopPhase.cycleWork 0, false⟩ false).phase =
      LoopPhase.sleepLoop 0 := by
  have h := failover_first_success_and_exhaustion
  refine ⟨?_, ?_, ?_, ?_⟩
  · exact h.1 exFetchOk2 ["e1"] [] "e2" "ok" (by decide) (by decide)
  · exact h.2.1 exFetchFail ["e1", "e2"] (by decide)
  · exact h.2.2.1 ["e1", "e2"] exFetchFail exFetchOk2 exFetchOk2
      exParseVany exParseG exParseI (by decide)
  · exact h.2.2.2 3 ⟨LoopPhase.cycleWork 0, false⟩ false rfl

/-- C5 counterexample.  The first endpoint answers with the unparseable
payload "garbage" while the second endpoint would answer "good", which
parses.  The failover client returns "garbage" as a success with no
warning recorded — it does not advance to `e2` — and the cycle ends in
an uncaught `json.loads` exception that terminates the process, not in
a skip or a completed cycle. -/
theorem malformed_response_crashes_cex :
    run_solana_command exFetchGarbage ["e1", "e2"] = (some "garbage", []) ∧
    runCycle ["e1", "e2"] exFetchGarbage exFetchOk2 exFetchOk2
        exParseV exParseG exParseI =
      CycleResult.crashed "json.loads validators" ∧
    CycleResult.crashed "json.loads validators" ≠ CycleResult.skipped := by
  refine ⟨rfl, rfl, ?_⟩
  intro h
  exact CycleResult.noConfusion h

/-- C5 amended.  A fetched payload that fails to parse is *not* treated
as an endpoint failure: parsing happens only after the failover client
has already returned the payload as that endpoint's success, and the
parse error is uncaught, terminating the process.  This holds at each of
the three fetch stages (validator list, gossip, validator info). -/
theorem malformed_response_uncaught_crash
    (eps : List String) (fetchV fetchG fetchI : String → Option String)
    (parseV : String → Option (List Validator))
    (parseG : String → Option (List GossipNode))
    (parseI : String → Option (List InfoEntry))
    (sV sG sI : String)
    (hV : (run_solana_command fetchV eps).1 = some sV)
    (hVt : falsyPayload (some sV) = false)
    (hG : (run_solana_command fetchG eps).1 = some sG)
    (hGt : falsyPayload (some sG) = false)
    (hI : (run_solana_command fetchI eps).1 = some sI)
    (hIt : falsyPayload (some sI) = false) :
    (parseV sV = none →
      runCycle eps fetchV fetchG fetchI parseV parseG parseI =
        CycleResult.crashed "json.loads validators") ∧
    (∀ valids, parseV sV = some valids → parseG sG = none →
      runCycle eps fetchV fetchG fetchI parseV parseG parseI =
        CycleResult.crashed "json.loads gossip") ∧
    (∀ valids gossip, parseV sV = some valids → parseG sG = some gossip →
      parseI sI = none →
      runCycle eps fetchV fetchG fetchI parseV parseG parseI =
        CycleResult.crashed "json.loads validator-info") := by
  refine ⟨?_, ?_, ?_⟩
  · intro hpv
    simp [runCycle, hV, hVt, hpv]
  · intro valids hpv hpg
    simp [runCycle, hV, hVt, hpv, hG, hGt, hpg]
  · intro valids gossip hpv hpg hpi
    simp [runCycle, hV, hVt, hpv, hG, hGt, hpg, hI, hIt, hpi]

/-- C5 amended witness: the validator-stage crash at the concrete
malformed-payload instance. -/
theorem malformed_response_uncaught_crash_witness :
    runCycle ["e1", "e2"] exFetchGarbage exFetchOk2 exFetchOk2
        exParseV exParseG exParseI =
      CycleResult.crashed "json.loads validators" := by
  have h := malformed_response_uncaught_crash ["e1", "e2"]
    exFetchGarbage exFetchOk2 exFetchOk2 exParseV exParseG exParseI
    "garbage" "ok" "ok" rfl rfl rfl rfl rfl rfl
  exact h.1 rfl

/-- C6.  Cancellation discipline of the polling loop:
(1) cycle work is never aborted: a step taken during the cycle advances
    the cycle by one unit regardless of the cancellation flag and of any
    arriving signal;
(2) a started cycle runs fully to completion: from `cycleWork k`, after
    `k + 1` steps — whatever signals arrive — the loop is at the start
    of the inter-cycle sleep;
(3) once the flag is cleared, no step sleeps (every 0.1-second
    `time.sleep` tick requires the flag), and the flag stays cleared:
    pending shutdown costs at most the one in-flight 0.1 s tick;
(4) from any point of the sleep phase with cancellation pending, two
    non-sleeping steps (inner `while` condition check, outer `while`
    condition check) reach the stopped state — the shutdown is honoured
    at the sub-second polling granularity rather than after the full
    5-second interval. -/
theorem cancellation_completes_cycle_and_polls_sleep :
    (∀ (n k : Nat) (s : LoopState) (sig : Bool),
      s.phase = LoopPhase.cycleWork (k + 1) →
      (loopStep n s sig).phase = LoopPhase.cycleWork k) ∧
    (∀ (n k : Nat) (r : Bool) (sigs : List Bool), sigs.length = k + 1 →
      (loopSteps n ⟨LoopPhase.cycleWork k, r⟩ sigs).phase =
        LoopPhase.sleepLoop 0) ∧
    (∀ (n : Nat) (s : LoopState) (sig : Bool), s.running = false →
      isSleepTick s = false ∧ (loopStep n s sig).running = false) ∧
    (∀ (n e : Nat) (sig1 sig2 : Bool),
      loopStep n (loopStep n ⟨LoopPhase.sleepLoop e, false⟩ sig1) sig2 =
        ⟨LoopPhase.stopped, false⟩) := by
  refine ⟨?_, ?_, ?_, ?_⟩
  · intro n k s sig hphase
    simp [loopStep, hphase]
  · intro n k
    induction k with
    | zero =>
      intro r sigs hlen
      match sigs, hlen with
      | [sig], _ => simp [loopSteps, loopStep]
    | succ k ih =>
      intro r sigs hlen
      match sigs, hlen with
      | sig :: rest, hlen =>
        have hrest : rest.length = k + 1 := by
          simpa using hlen
        have hstep : loopStep n ⟨LoopPhase.cycleWork (k + 1), r⟩ sig =
            ⟨LoopPhase.cycleWork k, r && !sig⟩ := by
          simp [loopStep]
        calc (loopSteps n ⟨LoopPhase.cycleWork (k + 1), r⟩ (sig :: rest)).phase
            = (loopSteps n ⟨LoopPhase.cycleWork k, r && !sig⟩ rest).phase := by
              simp [loopSteps, hstep]
          _ = LoopPhase.sleepLoop 0 := ih (r && !sig) rest hrest
  · intro n s sig hrun
    constructor
    · unfold isSleepTick
      cases hp : s.phase <;> simp [hrun]
    · simp [loopStep, hrun]
  · intro n e sig1 sig2
    simp [loopStep, sleepTicks]

/-- C6 witness: a concrete trace — a signal arriving mid-cycle does not
divert the cycle; a 2-unit cycle finishes in 3 steps under signals; a
cleared flag means no sleep tick; from tick 7 of the sleep with a
cleared flag, two steps reach `stopped`. -/
theorem cancellation_completes_cycle_and_polls_sleep_witness :
    (loopStep 2 ⟨LoopPhase.cycleWork 2, true⟩ true).phase =
      LoopPhase.cycleWork 1 ∧
    (loopSteps 2 ⟨LoopPhase.cycleWork 2, true⟩ [true, false, false]).phase =
      LoopPhase.sleepLoop 0 ∧
    isSleepTick ⟨LoopPhase.sleepLoop 7, false⟩ = false ∧
    loopStep 2 (loopStep 2 ⟨LoopPhase.sleepLoop 7, false⟩ false) true =
      ⟨LoopPhase.stopped, false⟩ := by
  have h := cancellation_completes_cycle_and_polls_sleep
  exact ⟨h.1 2 1 ⟨LoopPhase.cycleWork 2, true⟩ true rfl,
    h.2.1 2 2 true [true, false, false] rfl,
    (h.2.2.1 2 ⟨LoopPhase.sleepLoop 7, false⟩ true rfl).1,
    h.2.2.2 2 7 false true⟩

/-- C7.  Ranking the empty validator list yields the empty ranked view
and a leader-credits baseline of 0; the embedding is total, so no error
is raised. -/
theorem empty_input_ranking :
    rankedValidators ([] : List Validator) = [] ∧
    epochCreditsRank1 (rankedValidators ([] : List Validator)) = 0 :=
  ⟨rfl, rfl⟩

/-- C8 counterexample.  A found detail record whose `activatedStake`
key is missing does *not* fall back to the "Unknown" sentinel: the code
defaults the raw stake to 0 (`validator.get('activatedStake', 0)`) and
displays `0 / 10^9 = 0`. -/
theorem lookup_missing_stake_not_unknown_cex :
    (get_validator_details [⟨mkV "A" 5, 1⟩] "A").activatedStake =
      FieldVal.val (0 : ℚ) ∧
    FieldVal.val (0 : ℚ) ≠ (FieldVal.unknown : FieldVal ℚ) := by
  constructor
  · simp [get_validator_details, mkV]
  · intro h
    exact FieldVal.noConfusion h

/-- C8 amended.  For an identity absent from a dataset, each lookup
returns the "Unknown" sentinel (and a name hit with no published name
also yields "Unknown"); within a found detail record, `lastVote`,
`rootSlot`, `version` and `skipRate` each independently fall back to
"Unknown" when missing, while a present activated-stake is displayed as
the raw integer divided by 10^9 and a *missing* activated-stake falls
back to raw 0 (displayed 0), not "Unknown". -/
theorem lookup_unknown_fallbacks :
    (∀ (infos : List InfoEntry) (id : String),
      (∀ i ∈ infos, i.identityPubkey ≠ some id) →
      get_validator_name infos id = "Unknown") ∧
    (∀ (infos : List InfoEntry) (id : String) (i : InfoEntry),
      infos.find? (fun j => j.identityPubkey == some id) = some i →
      i.name = none → get_validator_name infos id = "Unknown") ∧
    (∀ (gossip : List GossipNode) (id : String),
      (∀ nd ∈ gossip, nd.identityPubkey ≠ some id) →
      get_ip_address gossip id = "Unknown") ∧
    (∀ (ranked : List RankedValidator) (id : String),
      (∀ rv ∈ ranked, rv.validator.identityPubkey ≠ some id) →
      get_validator_details ranked id =
        ⟨FieldVal.unknown, FieldVal.unknown, FieldVal.unknown,
          FieldVal.unknown, FieldVal.unknown⟩) ∧
    (∀ (ranked : List RankedValidator) (id : String) (rv : RankedValidator),
      ranked.find? (fun x => x.validator.identityPubkey == some id) = some rv →
      (rv.validator.lastVote = none →
        (get_validator_details ranked id).lastVote = FieldVal.unknown) ∧
      (∀ x : Int, rv.validator.lastVote = some x →
        (get_validator_details ranked id).lastVote = FieldVal.val x) ∧
      (rv.validator.rootSlot = none →
        (get_validator_details ranked id).rootSlot = FieldVal.unknown) ∧
      (∀ x : Int, rv.validator.rootSlot = some x →
        (get_validator_details ranked id).rootSlot = FieldVal.val x) ∧
      (rv.validator.version = none →
        (get_validator_details ranked id).version = FieldVal.unknown) ∧
      (∀ x : String, rv.validator.version = some x →
        (get_validator_details ranked id).version = FieldVal.val x) ∧
      (rv.validator.skipRate = none →
        (get_validator_details ranked id).skipRate = FieldVal.unknown) ∧
      (∀ x : String, rv.validator.skipRate = some x →
        (get_validator_details ranked id).skipRate = FieldVal.val x) ∧
      (∀ st : Int, rv.validator.activatedStake = some st →
        (get_validator_details ranked id).activatedStake =
          FieldVal.val ((st : ℚ) / 1000000000)) ∧
      (rv.validator.activatedStake = none →
        (get_validator_details ranked id).activatedStake =
          FieldVal.val (0 : ℚ))) := by
  refine ⟨?_, ?_, ?_, ?_, ?_⟩
  · intro infos id h
    unfold get_validator_name
    rw [List.find?_eq_none.mpr (by intro i hi; simpa using h i hi)]
  · intro infos id i hfind hname
    unfold get_validator_name
    rw [hfind]
    simp [hname]
  · intro gossip id h
    unfold get_ip_address
    rw [List.find?_eq_none.mpr (by intro nd hnd; simpa using h nd hnd)]
  · intro ranked id h
    unfold get_validator_details
    rw [List.find?_eq_none.mpr (by intro rv hrv; simpa using h rv hrv)]
  · intro ranked id rv hfind
    refine ⟨?_, ?_, ?_, ?_, ?_, ?_, ?_, ?_, ?_, ?_⟩ <;>
      first
        | (intro h; simp [get_validator_details, hfind, toFieldVal, h])
        | (intro x h; simp [get_validator_details, hfind, toFieldVal, h])

/-- C8 amended witness: a name lookup on an empty info list misses; a
found record with only a 7 × 10^9 raw stake shows stake 7 and "Unknown"
for its missing version. -/
theorem lookup_unknown_fallbacks_witness :
    get_validator_name [] "X" = "Unknown" ∧
    (get_validator_details [⟨exStakeV, 1⟩] "A").activatedStake =
      FieldVal.val ((7000000000 : ℚ) / 1000000000) ∧
    (get_validator_details [⟨exStakeV, 1⟩] "A").version = FieldVal.unknown := by
  have h := lookup_unknown_fallbacks
  have hfind : List.find?
      (fun x : RankedValidator => x.validator.identityPubkey == some "A")
      [⟨exStakeV, 1⟩] = some ⟨exStakeV, 1⟩ := by decide
  refine ⟨h.1 [] "X" (by simp), ?_, ?_⟩
  · exact (h.2.2.2.2 [⟨exStakeV, 1⟩] "A" ⟨exStakeV, 1⟩ hfind).2.2.2.2.2.2.2.2.1
      7000000000 rfl
  · exact (h.2.2.2.2 [⟨exStakeV, 1⟩] "A" ⟨exStakeV, 1⟩ hfind).2.2.2.2.1 rfl

/-- C9 counterexample.  On a wrong argument count the program prints the
usage message with Python's bare `print` — standard output, not standard
error — before exiting with code 1. -/
theorem usage_message_on_stdout_cex :
    validateArgs ["tvc.py"] =
      Except.error ⟨OutStream.stdout, usageMessage, 1⟩ ∧
    OutStream.stdout ≠ OutStream.stderr := by
  constructor
  · rfl
  · intro h
    exact OutStream.noConfusion h

/-- C9 amended.  Missing or invalid command-line arguments (wrong
argument count, or a network name outside the two supported networks)
produce a usage / error message on *standard output* and an exit with
code 1 (non-zero). -/
theorem invalid_args_usage_stdout_exit_one :
    (∀ argv : List String, argv.length ≠ 3 →
      validateArgs argv = Except.error ⟨OutStream.stdout, usageMessage, 1⟩) ∧
    (∀ a0 a1 a2 : String, ¬ (lowerAscii a1 = "um" ∨ lowerAscii a1 = "ut") →
      validateArgs [a0, a1, a2] =
        Except.error ⟨OutStream.stdout, clusterErrorMessage, 1⟩) ∧
    (∀ (argv : List String) (e : CliError),
      validateArgs argv = Except.error e → e.exitCode = 1) := by
  have heq3 : ∀ a0 a1 a2 : String, validateArgs [a0, a1, a2] =
      if lowerAscii a1 = "um" ∨ lowerAscii a1 = "ut" then
        Except.ok (lowerAscii a1, a2)
      else Except.error ⟨OutStream.stdout, clusterErrorMessage, 1⟩ :=
    fun _ _ _ => rfl
  refine ⟨?_, ?_, ?_⟩
  · intro argv h
    match argv with
    | [] => rfl
    | [_] => rfl
    | [_, _] => rfl
    | [_, _, _] => simp at h
    | _ :: _ :: _ :: _ :: _ => rfl
  · intro a0 a1 a2 h
    rw [heq3, if_neg h]
  · intro argv e h
    match argv, h with
    | [], h => cases h; rfl
    | [_], h => cases h; rfl
    | [_, _], h => cases h; rfl
    | [a0, a1, a2], h =>
      rw [heq3] at h
      by_cases hc : lowerAscii a1 = "um" ∨ lowerAscii a1 = "ut"
      · rw [if_pos hc] at h
        cases h
      · rw [if_neg hc] at h
        cases h
        rfl
    | _ :: _ :: _ :: _ :: _, h => cases h; rfl

/-- C9 amended witness: too few arguments and an unknown network name
both produce code-1 rejections on standard output. -/
theorem invalid_args_usage_stdout_exit_one_witness :
    validateArgs ["tvc.py"] =
      Except.error ⟨OutStream.stdout, usageMessage, 1⟩ ∧
    validateArgs ["tvc.py", "xx", "id"] =
      Except.error ⟨OutStream.stdout, clusterErrorMessage, 1⟩ ∧
    (⟨OutStream.stdout, usageMessage, 1⟩ : CliError).exitCode = 1 := by
  have h := invalid_args_usage_stdout_exit_one
  refine ⟨h.1 ["tvc.py"] (by decide), ?_, ?_⟩
  · exact h.2.1 "tvc.py" "xx" "id" (by decide)
  · exact h.2.2 ["tvc.py"] _ (h.1 ["tvc.py"] (by decide))

/-- C10.  The extended-table variant's global rank list only grows:
each cycle's update preserves every existing entry, preserves
sortedness, and inserts the highlighted validator's current rank when
it is new; across any sequence of cycles the final list contains the
whole initial list and every rank the highlighted validator ever held,
and stays sorted (the initial `LIST_RANKS` being sorted). -/
theorem list_ranks_sorted_superset_accumulates :
    (∀ (lr : List Nat) (ur : Option Nat) (x : Nat),
      x ∈ lr → x ∈ updateListRanks lr ur) ∧
    (∀ (lr : List Nat) (ur : Option Nat),
      lr.Pairwise (· ≤ ·) → (updateListRanks lr ur).Pairwise (· ≤ ·)) ∧
    (∀ (lr : List Nat) (r : Nat), r ∈ updateListRanks lr (some r)) ∧
    (∀ (init : List Nat) (urs : List (Option Nat)) (x : Nat),
      x ∈ init → x ∈ runRankCycles init urs) ∧
    (∀ (init : List Nat) (urs : List (Option Nat)) (r : Nat),
      some r ∈ urs → r ∈ runRankCycles init urs) ∧
    (∀ (init : List Nat) (urs : List (Option Nat)),
      init.Pairwise (· ≤ ·) → (runRankCycles init urs).Pairwise (· ≤ ·)) ∧
    LIST_RANKS_init.Pairwise (· ≤ ·) := by
  have hstep_eq : ∀ (lr : List Nat) (r : Nat), updateListRanks lr (some r) =
      if r ∈ lr then lr else sortAsc (lr ++ [r]) :=
    fun _ _ => rfl
  have hacc : ∀ (lr : List Nat) (r : Nat), r ∈ updateListRanks lr (some r) := by
    intro lr r
    rw [hstep_eq]
    by_cases hr : r ∈ lr
    · rw [if_pos hr]
      exact hr
    · rw [if_neg hr]
      exact (sortAsc_perm _).mem_iff.mpr
        (List.mem_append_right _ (List.mem_singleton.mpr rfl))
  have hsortstep : ∀ (lr : List Nat) (ur : Option Nat),
      lr.Pairwise (· ≤ ·) → (updateListRanks lr ur).Pairwise (· ≤ ·) := by
    intro lr ur h
    cases ur with
    | none => exact h
    | some r =>
      rw [hstep_eq]
      by_cases hr : r ∈ lr
      · rw [if_pos hr]
        exact h
      · rw [if_neg hr]
        exact sortAsc_pairwise _
  refine ⟨fun lr ur x => mem_updateListRanks, hsortstep, hacc,
    fun init urs x h => mem_runRankCycles_of_mem h, ?_, ?_, by decide⟩
  · intro init urs
    induction urs generalizing init with
    | nil => simp
    | cons u rest ih =>
      intro r hmem
      rcases List.mem_cons.mp hmem with rfl | hmem
      · exact @mem_runRankCycles_of_mem r rest (updateListRanks init (some r))
          (hacc init r)
      · exact ih (updateListRanks init u) r hmem
  · intro init urs
    induction urs generalizing init with
    | nil => exact fun h => h
    | cons u rest ih =>
      intro h
      exact ih (updateListRanks init u) (hsortstep init u h)

/-- C10 witness: starting from the initial `LIST_RANKS`, after cycles in
which the highlighted validator held rank 7, was absent, then held rank
7 again, the list contains 7 and every initial entry, and a single
update keeps a concrete list sorted. -/
theorem list_ranks_sorted_superset_accumulates_witness :
    7 ∈ runRankCycles LIST_RANKS_init [some 7, none, some 7] ∧
    5 ∈ runRankCycles LIST_RANKS_init [some 7, none, some 7] ∧
    (updateListRanks [1, 5, 10] (some 7)).Pairwise (· ≤ ·) := by
  have h := list_ranks_sorted_superset_accumulates
  refine ⟨?_, ?_, ?_⟩
  · exact h.2.2.2.2.1 LIST_RANKS_init [some 7, none, some 7] 7 (by decide)
  · exact h.2.2.2.1 LIST_RANKS_init [some 7, none, some 7] 5 (by decide)
  · exact h.2.1 [1, 5, 10] (some 7) (by decide)

end Tvc
